import Mathlib

-- Verification development for the frame-store / transform-engine library
-- (src/lib/video_functions.c, src/lib/video_functions_wasm.c,
-- src/lib/video_codec.c).  Machine integers are modelled as Nat with
-- explicit bounds; a byte is a Nat < 256.  Fallible C functions returning
-- NULL are modelled with Option; executions that hit undefined behaviour
-- (null dereference, out-of-range float-to-integer conversion) are
-- modelled with Except/Option error values.

namespace Film

-- ## Data model
--
-- Flat layout (struct Video, video_functions.h lines 32-38): one owned
-- buffer of num_frames*channels*height*width bytes, addressed by strides.
-- Arena layout (struct SVideo, video_functions.h lines 24-30): frames,
-- each a list of channels, each a list of height*width bytes.  The nested
-- lists model the logical content addressed through the Frame/Channel
-- descriptors of a well-formed arena.

/-- Flat-layout store (struct Video): header fields plus one flat pixel
buffer in frame-major, channel-major, row-major order. -/
structure Video where
  num_frames : Nat
  channels : Nat
  height : Nat
  width : Nat
  data : List Nat
deriving DecidableEq, Repr

/-- Arena-layout store (struct SVideo), viewed through its descriptors:
frames, each holding `channels` channel buffers of height*width bytes. -/
structure SVideo where
  num_frames : Nat
  channels : Nat
  height : Nat
  width : Nat
  frames : List (List (List Nat))
deriving DecidableEq, Repr

-- ## Scalar clamp and the SIMD lane operation

/-- The CLAMP macro of video_functions.c lines 9-10:
value < min gives min, else value > max gives max, else value. -/
def CLAMP (v lo hi : Nat) : Nat :=
  if v < lo then lo else if v > hi then hi else v

/-- One unsigned 8-bit lane of the vector body of clip_channel_S
(video_functions.c line 626): mm256 min epu8 of (max epu8 of v and lo)
and hi, i.e. min (max v lo) hi on each lane. -/
def simdLane (v lo hi : Nat) : Nat :=
  min (max v lo) hi

theorem simdLane_eq_CLAMP (v lo hi : Nat) (h : lo ≤ hi) :
    simdLane v lo hi = CLAMP v lo hi := by
  unfold simdLane CLAMP
  rw [Nat.max_def, Nat.min_def]
  split_ifs <;> omega

theorem CLAMP_mem (v lo hi : Nat) (h : lo ≤ hi) :
    lo ≤ CLAMP v lo hi ∧ CLAMP v lo hi ≤ hi := by
  unfold CLAMP; split_ifs <;> omega

theorem CLAMP_idem (v lo hi : Nat) (h : lo ≤ hi) :
    CLAMP (CLAMP v lo hi) lo hi = CLAMP v lo hi := by
  unfold CLAMP; split_ifs <;> omega

-- ## clip_channel, flat layout (video_functions.c lines 562-594)
--
-- The C loop writes exactly the offsets frame_idx*frame_size +
-- channel*channel_size + i for frame_idx < num_frames and
-- i < channel_size, applying CLAMP there; every other byte of the buffer
-- is untouched.  An index idx is one of those offsets iff
-- idx < num_frames*frame_size and the in-frame remainder idx % frame_size
-- lies in [channel*channel_size, channel*channel_size + channel_size).

/-- Predicate: flat-buffer index idx is written by the clip_channel loop
for channel c of a store with the given geometry. -/
def inChannelRegion (numFrames channels cs : Nat) (c idx : Nat) : Prop :=
  idx < numFrames * (channels * cs) ∧
    c * cs ≤ idx % (channels * cs) ∧ idx % (channels * cs) < c * cs + cs

instance (numFrames channels cs c idx : Nat) :
    Decidable (inChannelRegion numFrames channels cs c idx) := by
  unfold inChannelRegion; infer_instance

/-- clip_channel of video_functions.c lines 562-594 (flat layout): after
the null and channel-range guards, CLAMP every sample of channel
`c` of every frame in place. -/
def clip_channel (v : Video) (c lo hi : Nat) : Video :=
  if c ≥ v.channels then v
  else
    let cs := v.height * v.width
    { v with data := (List.range v.data.length).map (fun idx =>
        let x := v.data.getD idx 0
        if inChannelRegion v.num_frames v.channels cs c idx then CLAMP x lo hi else x) }

-- ## clip_channel_S, arena layout (video_functions.c lines 596-637)
--
-- For each frame below num_frames, the channel-c buffer is processed in
-- 32-lane vector batches while i + 31 < channel_size (covering exactly
-- the indices below 32 * (channel_size / 32)) and the remaining tail
-- below channel_size with the scalar CLAMP rule.

/-- The per-buffer action of clip_channel_S: vector batches on indices
below 32*(cs/32), scalar CLAMP on the tail below cs, rest untouched. -/
def clipDataS (cs lo hi : Nat) (data : List Nat) : List Nat :=
  (List.range data.length).map (fun i =>
    let x := data.getD i 0
    if i < 32 * (cs / 32) then simdLane x lo hi
    else if i < cs then CLAMP x lo hi
    else x)

/-- clip_channel_S of video_functions.c lines 596-637: guard on null
store or out-of-range channel, then the batch-plus-tail clip of the
channel-c buffer of every frame below num_frames. -/
def clip_channel_S (v : SVideo) (c lo hi : Nat) : SVideo :=
  if c ≥ v.channels then v
  else
    { v with frames := (List.range v.frames.length).map (fun f =>
        let fr := v.frames.getD f []
        if f < v.num_frames then
          (List.range fr.length).map (fun ch =>
            if ch = c then clipDataS (v.height * v.width) lo hi (fr.getD ch [])
            else fr.getD ch [])
        else fr) }

/-- Modelled from the spec: the pure scalar reference for clip_channel_S,
applying the scalar CLAMP rule (lo if v < lo; hi if v > hi; v otherwise)
to every element of channel c below channel_size, used as the comparison
point of the refinement claim about the vector path. -/
def clip_channel_S_scalar_ref (v : SVideo) (c lo hi : Nat) : SVideo :=
  if c ≥ v.channels then v
  else
    { v with frames := (List.range v.frames.length).map (fun f =>
        let fr := v.frames.getD f []
        if f < v.num_frames then
          (List.range fr.length).map (fun ch =>
            if ch = c then
              (List.range (fr.getD ch []).length).map (fun i =>
                let x := (fr.getD ch []).getD i 0
                if i < v.height * v.width then CLAMP x lo hi else x)
            else fr.getD ch [])
        else fr) }

theorem clipDataS_eq_scalar (cs lo hi : Nat) (h : lo ≤ hi) (data : List Nat) :
    clipDataS cs lo hi data =
      (List.range data.length).map (fun i =>
        let x := data.getD i 0
        if i < cs then CLAMP x lo hi else x) := by
  unfold clipDataS
  refine List.map_congr_left (fun i hi2 => ?_)
  by_cases h1 : i < 32 * (cs / 32)
  · have h2 : i < cs := lt_of_lt_of_le h1 (by
      calc 32 * (cs / 32) = cs / 32 * 32 := Nat.mul_comm _ _
        _ ≤ cs := Nat.div_mul_le_self cs 32)
    simp only [h1, if_pos, h2, if_pos]
    exact simdLane_eq_CLAMP _ _ _ h
  · simp only [h1, if_neg, not_false_iff]

theorem getD_range_map {α : Type} (g : Nat → α) (n i : Nat) (d : α) (h : i < n) :
    ((List.range n).map g).getD i d = g i := by
  rw [List.getD_eq_getElem _ d (by simpa using h)]
  simp

/-- Claim C2 (amended with min_value ≤ max_value): the 32-lane batch path
followed by the scalar tail of clip_channel_S produces, on every store
and channel, exactly the store produced by applying the scalar CLAMP rule
to every element of the channel, including buffers whose length is not a
multiple of 32. -/
theorem clip_channel_S_batch_tail_matches_scalar (v : SVideo) (c lo hi : Nat)
    (h : lo ≤ hi) :
    clip_channel_S v c lo hi = clip_channel_S_scalar_ref v c lo hi := by
  unfold clip_channel_S clip_channel_S_scalar_ref
  by_cases hc : c ≥ v.channels
  · simp [hc]
  · simp only [hc, if_neg, not_false_iff]
    congr 1
    refine List.map_congr_left (fun f hf => ?_)
    by_cases hfn : f < v.num_frames
    · simp only [hfn, if_pos]
      refine List.map_congr_left (fun ch hch => ?_)
      by_cases hcc : ch = c
      · simp only [hcc, if_pos]
        exact clipDataS_eq_scalar _ _ _ h _
      · simp [hcc]
    · simp [hfn]

/-- Witness for the amended C2 theorem, at a 35-byte (non-multiple-of-32)
channel buffer. -/
theorem clip_channel_S_batch_tail_matches_scalar_witness :
    (10 : Nat) ≤ 20 ∧
      clip_channel_S ⟨1, 1, 5, 7, [[List.replicate 35 150]]⟩ 0 10 20 =
        clip_channel_S_scalar_ref ⟨1, 1, 5, 7, [[List.replicate 35 150]]⟩ 0 10 20 :=
  ⟨by decide,
   clip_channel_S_batch_tail_matches_scalar ⟨1, 1, 5, 7, [[List.replicate 35 150]]⟩ 0 10 20
     (by decide)⟩

/-- Counterexample to claim C2 as stated: with min_value = 200 greater
than max_value = 100, on a 64-byte channel of value 150 the vector batch
produces 100 at element 0 while the scalar CLAMP rule produces 200. -/
theorem clip_channel_S_neq_scalar_when_bounds_swapped :
    ((((clip_channel_S ⟨1, 1, 8, 8, [[List.replicate 64 150]]⟩ 0 200 100).frames.getD 0
        []).getD 0 []).getD 0 0 = 100) ∧
      CLAMP ((((⟨1, 1, 8, 8, [[List.replicate 64 150]]⟩ : SVideo).frames.getD 0
        []).getD 0 []).getD 0 0) 200 100 = 200 := by
  decide

-- ## Claim C3: clip_channel boundedness and idempotence

theorem clip_channel_header (v : Video) (c lo hi : Nat) :
    (clip_channel v c lo hi).num_frames = v.num_frames ∧
      (clip_channel v c lo hi).channels = v.channels ∧
      (clip_channel v c lo hi).height = v.height ∧
      (clip_channel v c lo hi).width = v.width := by
  unfold clip_channel; split <;> exact ⟨rfl, rfl, rfl, rfl⟩

theorem clip_channel_data_length (v : Video) (c lo hi : Nat) :
    (clip_channel v c lo hi).data.length = v.data.length := by
  unfold clip_channel; split <;> simp

theorem clip_channel_data_getD (v : Video) (c lo hi : Nat) (hc : c < v.channels)
    (idx : Nat) (hidx : idx < v.data.length) :
    (clip_channel v c lo hi).data.getD idx 0 =
      (if inChannelRegion v.num_frames v.channels (v.height * v.width) c idx
       then CLAMP (v.data.getD idx 0) lo hi else v.data.getD idx 0) := by
  unfold clip_channel
  rw [if_neg (not_le.mpr hc)]
  exact getD_range_map _ _ _ _ hidx

theorem channel_offset_in_region (numFrames channels cs : Nat) (c f i : Nat)
    (hc : c < channels) (hf : f < numFrames) (hi : i < cs) :
    inChannelRegion numFrames channels cs c (f * (channels * cs) + (c * cs + i)) := by
  have hfs : c * cs + i < channels * cs := by
    have h1 : c * cs + cs ≤ channels * cs := by
      have h2 : c + 1 ≤ channels := Nat.succ_le_of_lt hc
      calc c * cs + cs = (c + 1) * cs := by ring
        _ ≤ channels * cs := Nat.mul_le_mul_right cs h2
    omega
  have hmod : (f * (channels * cs) + (c * cs + i)) % (channels * cs) = c * cs + i := by
    rw [Nat.add_comm, Nat.add_mul_mod_self_right]
    exact Nat.mod_eq_of_lt hfs
  refine ⟨?_, ?_, ?_⟩
  · have h1 : f + 1 ≤ numFrames := Nat.succ_le_of_lt hf
    calc f * (channels * cs) + (c * cs + i) < f * (channels * cs) + channels * cs := by omega
      _ = (f + 1) * (channels * cs) := by ring
      _ ≤ numFrames * (channels * cs) := Nat.mul_le_mul_right _ h1
  · rw [hmod]; omega
  · rw [hmod]; omega

/-- Claim C3 (amended with min_val ≤ max_val): after clip_channel(c, lo, hi)
every sample of channel c lies in [lo, hi], and applying the same
clip_channel a second time changes no byte of the store. -/
theorem clip_channel_bounded_and_idempotent (v : Video) (c lo hi : Nat)
    (hc : c < v.channels) (hlo : lo ≤ hi)
    (hdata : v.data.length = v.num_frames * (v.channels * (v.height * v.width))) :
    (∀ f, f < v.num_frames → ∀ i, i < v.height * v.width →
        lo ≤ (clip_channel v c lo hi).data.getD
            (f * (v.channels * (v.height * v.width)) + (c * (v.height * v.width) + i)) 0 ∧
          (clip_channel v c lo hi).data.getD
            (f * (v.channels * (v.height * v.width)) + (c * (v.height * v.width) + i)) 0 ≤ hi) ∧
      clip_channel (clip_channel v c lo hi) c lo hi = clip_channel v c lo hi := by
  constructor
  · intro f hf i hi2
    set cs := v.height * v.width
    have hreg := channel_offset_in_region v.num_frames v.channels cs c f i hc hf hi2
    have hidx : f * (v.channels * cs) + (c * cs + i) < v.data.length := by
      rw [hdata]; exact hreg.1
    rw [clip_channel_data_getD v c lo hi hc _ hidx, if_pos hreg]
    exact CLAMP_mem _ _ _ hlo
  · obtain ⟨n, chs, hh, ww, data⟩ := v
    simp only at hc hdata ⊢
    unfold clip_channel
    rw [if_neg (not_le.mpr hc), if_neg (not_le.mpr hc)]
    simp only [Video.mk.injEq, true_and]
    simp only [List.length_map, List.length_range]
    refine List.map_congr_left (fun idx hmem => ?_)
    have hidx : idx < data.length := List.mem_range.mp hmem
    rw [getD_range_map _ _ _ _ hidx]
    by_cases hP : inChannelRegion n chs (hh * ww) c idx
    · simp only [hP, if_pos]
      exact CLAMP_idem _ _ _ hlo
    · simp only [hP, if_neg, not_false_iff]

/-- Witness for the amended C3 theorem at a concrete 1x1x1 store. -/
theorem clip_channel_bounded_and_idempotent_witness :
    ((0 : Nat) < 1 ∧ (10 : Nat) ≤ 20 ∧
        (Video.mk 1 1 1 1 [150]).data.length = 1 * (1 * (1 * 1))) ∧
      ((∀ f, f < (1 : Nat) → ∀ i, i < (1 : Nat) * 1 →
          10 ≤ (clip_channel ⟨1, 1, 1, 1, [150]⟩ 0 10 20).data.getD
              (f * (1 * (1 * 1)) + (0 * (1 * 1) + i)) 0 ∧
            (clip_channel ⟨1, 1, 1, 1, [150]⟩ 0 10 20).data.getD
              (f * (1 * (1 * 1)) + (0 * (1 * 1) + i)) 0 ≤ 20) ∧
        clip_channel (clip_channel ⟨1, 1, 1, 1, [150]⟩ 0 10 20) 0 10 20 =
          clip_channel ⟨1, 1, 1, 1, [150]⟩ 0 10 20) :=
  ⟨⟨by decide, by decide, by decide⟩,
   clip_channel_bounded_and_idempotent ⟨1, 1, 1, 1, [150]⟩ 0 10 20 (by decide) (by decide)
     (by decide)⟩

/-- Counterexample to claim C3 as stated: with min_val = 200 greater than
max_val = 100 the clipped sample 150 becomes 200, which does not lie below
max_val, and a second application changes the store again (to 100). -/
theorem clip_channel_not_bounded_when_bounds_swapped :
    (clip_channel ⟨1, 1, 1, 1, [150]⟩ 0 200 100).data = [200] ∧
      ¬ ((clip_channel ⟨1, 1, 1, 1, [150]⟩ 0 200 100).data.getD 0 0 ≤ 100) ∧
      clip_channel (clip_channel ⟨1, 1, 1, 1, [150]⟩ 0 200 100) 0 200 100 ≠
        clip_channel ⟨1, 1, 1, 1, [150]⟩ 0 200 100 := by
  decide

-- ## Binary codec (video_functions.c decode/encode lines 12-64 and
-- 247-286, decode_S/encode_S lines 66-149 and 288-335)
--
-- A file is a list of bytes.  The header is written/read as num_frames
-- (signed 64-bit, host-native little-endian on x86-64) followed by
-- channels, height, width as single bytes; the payload follows raw.

/-- Little-endian byte encoding of a natural number on k bytes, the
host-native layout of the 64-bit num_frames field on x86-64. -/
def natToLE : Nat → Nat → List Nat
  | 0, _ => []
  | k + 1, n => n % 256 :: natToLE k (n / 256)

/-- Little-endian byte decoding. -/
def leToNat : List Nat → Nat
  | [] => 0
  | b :: bs => b + 256 * leToNat bs

theorem natToLE_length (k n : Nat) : (natToLE k n).length = k := by
  induction k generalizing n with
  | zero => rfl
  | succ k ih => simp [natToLE, ih]

theorem leToNat_natToLE (k n : Nat) : leToNat (natToLE k n) = n % 256 ^ k := by
  induction k generalizing n with
  | zero => simp [natToLE, leToNat, Nat.mod_one]
  | succ k ih =>
    simp only [natToLE, leToNat, ih]
    rw [pow_succ, Nat.mul_comm (256 ^ k) 256]
    exact (Nat.mod_mul).symm

/-- encode of video_functions.c lines 247-286 (flat layout): header then
frame_size*num_frames bytes of the flat buffer. -/
def encode (v : Video) : List Nat :=
  natToLE 8 v.num_frames ++
    v.channels :: v.height :: v.width ::
      v.data.take (v.channels * v.height * v.width * v.num_frames)

/-- decode of video_functions.c lines 12-64 (flat layout): read the four
header fields, then read frame_size*num_frames payload bytes; any short
read yields NULL (none).  No header value is validated. -/
def decode (file : List Nat) : Option Video :=
  if file.length < 11 then none
  else if (file.drop 11).length <
      file.getD 8 0 * file.getD 9 0 * file.getD 10 0 * leToNat (file.take 8) then none
  else some ⟨leToNat (file.take 8), file.getD 8 0, file.getD 9 0, file.getD 10 0,
    (file.drop 11).take
      (file.getD 8 0 * file.getD 9 0 * file.getD 10 0 * leToNat (file.take 8))⟩

/-- encode_S of video_functions.c lines 288-335 (arena layout): header,
then for each frame below num_frames and channel below channels the
height*width bytes of that channel buffer. -/
def encode_S (s : SVideo) : List Nat :=
  natToLE 8 s.num_frames ++
    s.channels :: s.height :: s.width ::
      ((List.range s.num_frames).map (fun f =>
        ((List.range s.channels).map (fun ch =>
          ((s.frames.getD f []).getD ch []).take (s.height * s.width))).flatten)).flatten

/-- decode_S of video_functions.c lines 66-149 (arena layout): read the
header, read the whole payload into the arena, and point the channel
descriptor of frame f, channel ch at the payload slice starting at
(f*channels + ch)*frame_size. -/
def decode_S (file : List Nat) : Option SVideo :=
  if file.length < 11 then none
  else if (file.drop 11).length <
      leToNat (file.take 8) * file.getD 8 0 * (file.getD 9 0 * file.getD 10 0) then none
  else some ⟨leToNat (file.take 8), file.getD 8 0, file.getD 9 0, file.getD 10 0,
    (List.range (leToNat (file.take 8))).map (fun f =>
      (List.range (file.getD 8 0)).map (fun ch =>
        (((file.drop 11).take
            (leToNat (file.take 8) * file.getD 8 0 * (file.getD 9 0 * file.getD 10 0))).drop
          ((f * file.getD 8 0 + ch) * (file.getD 9 0 * file.getD 10 0))).take
          (file.getD 9 0 * file.getD 10 0)))⟩

-- ## List helper lemmas for the codec proofs

theorem flatten_length_uniform {α : Type} (L : List (List α)) (k : Nat)
    (h : ∀ x ∈ L, x.length = k) : L.flatten.length = L.length * k := by
  induction L with
  | nil => simp
  | cons x xs ih =>
    simp only [List.flatten_cons, List.length_append, List.length_cons]
    rw [h x (by simp), ih (fun y hy => h y (by simp [hy]))]
    ring

theorem flatten_getSeg {α : Type} (L : List (List α)) (k : Nat)
    (h : ∀ x ∈ L, x.length = k) (i : Nat) (hi : i < L.length) :
    (L.flatten.drop (i * k)).take k = L.getD i [] := by
  induction L generalizing i with
  | nil => simp at hi
  | cons x xs ih =>
    have hx : x.length = k := h x (by simp)
    cases i with
    | zero =>
      simp only [Nat.zero_mul, List.drop_zero, List.flatten_cons, List.getD_cons_zero]
      rw [← hx, List.take_left]
    | succ i =>
      have hdrop : (x ++ xs.flatten).drop ((i + 1) * k) = xs.flatten.drop (i * k) := by
        have h1 : (i + 1) * k = x.length + i * k := by rw [hx]; ring
        rw [h1, ← List.drop_drop, List.drop_left]
      simp only [List.flatten_cons, hdrop, List.getD_cons_succ]
      exact ih (fun y hy => h y (by simp [hy])) i (by simpa using hi)

theorem flatten_getD_uniform {α : Type} (L : List (List α)) (k : Nat) (d : α)
    (h : ∀ x ∈ L, x.length = k) (f j : Nat) (hf : f < L.length) (hj : j < k) :
    L.flatten.getD (f * k + j) d = (L.getD f []).getD j d := by
  induction L generalizing f with
  | nil => simp at hf
  | cons x xs ih =>
    have hx : x.length = k := h x (by simp)
    cases f with
    | zero =>
      simp only [Nat.zero_mul, Nat.zero_add, List.flatten_cons, List.getD_cons_zero]
      exact List.getD_append x xs.flatten d j (by omega)
    | succ f =>
      have h1 : (f + 1) * k + j = x.length + (f * k + j) := by rw [hx]; ring
      simp only [List.flatten_cons, List.getD_cons_succ]
      rw [h1, List.getD_append_right x xs.flatten d _ (by omega), Nat.add_sub_cancel_left]
      exact ih (fun y hy => h y (by simp [hy])) f (by simpa using hf)

theorem range_map_getD {α : Type} (l : List α) (d : α) :
    (List.range l.length).map (fun i => l.getD i d) = l := by
  induction l with
  | nil => simp
  | cons x xs ih =>
    rw [List.length_cons, List.range_succ_eq_map]
    simp only [List.map_cons, List.getD_cons_zero, List.map_map]
    have hcomp : ((fun i => (x :: xs).getD i d) ∘ Nat.succ) = fun i => xs.getD i d := by
      funext i; simp
    rw [hcomp, ih]

theorem mul_index_lt (f ch n c : Nat) (hf : f < n) (hch : ch < c) :
    f * c + ch < n * c := by
  have h1 : f + 1 ≤ n := Nat.succ_le_of_lt hf
  calc f * c + ch < f * c + c := by omega
    _ = (f + 1) * c := by ring
    _ ≤ n * c := Nat.mul_le_mul_right c h1

-- ## Header parsing of an encoded file

theorem header_take8 (n c h w : Nat) (P : List Nat) :
    (natToLE 8 n ++ c :: h :: w :: P).take 8 = natToLE 8 n :=
  List.take_left' (natToLE_length 8 n)

theorem header_length (n c h w : Nat) (P : List Nat) :
    (natToLE 8 n ++ c :: h :: w :: P).length = 11 + P.length := by
  simp [natToLE_length]; omega

theorem header_getD8 (n c h w : Nat) (P : List Nat) :
    (natToLE 8 n ++ c :: h :: w :: P).getD 8 0 = c := by
  rw [List.getD_append_right _ _ _ _ (by rw [natToLE_length])]
  rw [natToLE_length]
  rfl

theorem header_getD9 (n c h w : Nat) (P : List Nat) :
    (natToLE 8 n ++ c :: h :: w :: P).getD 9 0 = h := by
  rw [List.getD_append_right _ _ _ _ (by rw [natToLE_length]; omega)]
  rw [natToLE_length]
  rfl

theorem header_getD10 (n c h w : Nat) (P : List Nat) :
    (natToLE 8 n ++ c :: h :: w :: P).getD 10 0 = w := by
  rw [List.getD_append_right _ _ _ _ (by rw [natToLE_length]; omega)]
  rw [natToLE_length]
  rfl

theorem header_drop11 (n c h w : Nat) (P : List Nat) :
    (natToLE 8 n ++ c :: h :: w :: P).drop 11 = P := by
  have h1 : (11 : Nat) = (natToLE 8 n).length + 3 := by rw [natToLE_length]
  rw [h1, ← List.drop_drop, List.drop_left]
  rfl

theorem leToNat_take8 (n : Nat) (h63 : n < 2 ^ 63) :
    leToNat (natToLE 8 n) = n := by
  rw [leToNat_natToLE]
  exact Nat.mod_eq_of_lt (lt_of_lt_of_le h63 (by norm_num))

-- ## Claim C4: round-trip decode (encode S) = S for both layouts

theorem decode_encode_flat (n c h w : Nat) (data : List Nat) (h63 : n < 2 ^ 63)
    (hdata : data.length = c * h * w * n) :
    decode (encode ⟨n, c, h, w, data⟩) = some ⟨n, c, h, w, data⟩ := by
  have htake : data.take (c * h * w * n) = data := by
    rw [← hdata]; exact List.take_length data
  show decode (natToLE 8 n ++ c :: h :: w :: data.take (c * h * w * n)) = _
  rw [htake]
  unfold decode
  rw [header_length n c h w data, header_take8 n c h w data, header_getD8 n c h w data,
    header_getD9 n c h w data, header_getD10 n c h w data, header_drop11 n c h w data,
    leToNat_take8 n h63]
  rw [if_neg (by omega), if_neg (by omega), htake]

theorem payload_eq (n c h w : Nat) (frames : List (List (List Nat)))
    (hlen : frames.length = n)
    (hch : ∀ fr ∈ frames, fr.length = c)
    (hpix : ∀ fr ∈ frames, ∀ chd ∈ fr, chd.length = h * w) :
    ((List.range n).map (fun f =>
        ((List.range c).map (fun ch =>
          ((frames.getD f []).getD ch []).take (h * w))).flatten)).flatten
      = (frames.map List.flatten).flatten := by
  congr 1
  have step : ∀ f ∈ List.range n,
      ((List.range c).map (fun ch =>
        ((frames.getD f []).getD ch []).take (h * w))).flatten
      = (frames.getD f []).flatten := by
    intro f hf
    have hfn : f < frames.length := by rw [hlen]; exact List.mem_range.mp hf
    have hframe : frames.getD f [] ∈ frames := by
      rw [List.getD_eq_getElem _ _ hfn]; exact List.getElem_mem hfn
    have hcc : (frames.getD f []).length = c := hch _ hframe
    congr 1
    have inner : ∀ ch ∈ List.range c,
        ((frames.getD f []).getD ch []).take (h * w) = (frames.getD f []).getD ch [] := by
      intro ch hch2
      have hch3 : ch < (frames.getD f []).length := by rw [hcc]; exact List.mem_range.mp hch2
      have hmem : (frames.getD f []).getD ch [] ∈ frames.getD f [] := by
        rw [List.getD_eq_getElem _ _ hch3]; exact List.getElem_mem hch3
      rw [← hpix _ hframe _ hmem]; exact List.take_length _
    rw [List.map_congr_left inner, ← hcc, range_map_getD]
  rw [List.map_congr_left step]
  have hcomp : (fun f => (frames.getD f []).flatten) =
      List.flatten ∘ (fun f => frames.getD f []) := rfl
  rw [hcomp, ← List.map_map, ← hlen, range_map_getD]

theorem payload_length (n c h w : Nat) (frames : List (List (List Nat)))
    (hlen : frames.length = n)
    (hch : ∀ fr ∈ frames, fr.length = c)
    (hpix : ∀ fr ∈ frames, ∀ chd ∈ fr, chd.length = h * w) :
    ((frames.map List.flatten).flatten).length = n * c * (h * w) := by
  have h1 : ∀ x ∈ frames.map List.flatten, x.length = c * (h * w) := by
    intro x hx
    obtain ⟨fr, hfr, rfl⟩ := List.mem_map.mp hx
    rw [flatten_length_uniform fr (h * w) (hpix fr hfr), hch fr hfr]
  rw [flatten_length_uniform _ _ h1, List.length_map, hlen, Nat.mul_assoc]

theorem payload_getSeg (n c h w : Nat) (frames : List (List (List Nat)))
    (hlen : frames.length = n)
    (hch : ∀ fr ∈ frames, fr.length = c)
    (hpix : ∀ fr ∈ frames, ∀ chd ∈ fr, chd.length = h * w)
    (f ch : Nat) (hf : f < n) (hchlt : ch < c) :
    (((frames.map List.flatten).flatten).drop ((f * c + ch) * (h * w))).take (h * w)
      = (frames.getD f []).getD ch [] := by
  rw [List.flatten_flatten.symm]
  have huniform : ∀ x ∈ frames.flatten, x.length = h * w := by
    intro x hx
    obtain ⟨fr, hfr, hx2⟩ := List.mem_flatten.mp hx
    exact hpix fr hfr x hx2
  have hlen2 : frames.flatten.length = n * c := by
    rw [flatten_length_uniform frames c hch, hlen]
  rw [flatten_getSeg frames.flatten (h * w) huniform (f * c + ch)
    (by rw [hlen2]; exact mul_index_lt f ch n c hf hchlt)]
  exact flatten_getD_uniform frames c [] hch f ch (by rw [hlen]; exact hf) hchlt

theorem decode_encode_arena (n c h w : Nat) (frames : List (List (List Nat)))
    (h63 : n < 2 ^ 63)
    (hlen : frames.length = n)
    (hch : ∀ fr ∈ frames, fr.length = c)
    (hpix : ∀ fr ∈ frames, ∀ chd ∈ fr, chd.length = h * w) :
    decode_S (encode_S ⟨n, c, h, w, frames⟩) = some ⟨n, c, h, w, frames⟩ := by
  have hpayload := payload_eq n c h w frames hlen hch hpix
  show decode_S (natToLE 8 n ++ c :: h :: w :: _) = _
  rw [hpayload]
  have hPlen : ((frames.map List.flatten).flatten).length = n * c * (h * w) :=
    payload_length n c h w frames hlen hch hpix
  have htakeP : ((frames.map List.flatten).flatten).take (n * c * (h * w)) =
      (frames.map List.flatten).flatten := by
    rw [← hPlen]; exact List.take_length _
  unfold decode_S
  rw [header_length n c h w _, header_take8 n c h w _, header_getD8 n c h w _,
    header_getD9 n c h w _, header_getD10 n c h w _, header_drop11 n c h w _,
    leToNat_take8 n h63]
  rw [if_neg (by omega), if_neg (by omega), htakeP]
  have hrec : (List.range n).map (fun f =>
      (List.range c).map (fun ch =>
        (((frames.map List.flatten).flatten).drop ((f * c + ch) * (h * w))).take (h * w)))
      = frames := by
    have step : ∀ f ∈ List.range n,
        (List.range c).map (fun ch =>
          (((frames.map List.flatten).flatten).drop ((f * c + ch) * (h * w))).take (h * w))
        = frames.getD f [] := by
      intro f hf
      have hfn : f < n := List.mem_range.mp hf
      have inner : ∀ ch ∈ List.range c,
          (((frames.map List.flatten).flatten).drop ((f * c + ch) * (h * w))).take (h * w)
          = (frames.getD f []).getD ch [] := by
        intro ch hch2
        exact payload_getSeg n c h w frames hlen hch hpix f ch hfn (List.mem_range.mp hch2)
      have hframe : frames.getD f [] ∈ frames := by
        rw [List.getD_eq_getElem _ _ (by rw [hlen]; exact hfn)]
        exact List.getElem_mem (by rw [hlen]; exact hfn)
      rw [List.map_congr_left inner, ← hch _ hframe, range_map_getD]
    rw [List.map_congr_left step, ← hlen, range_map_getD]
  rw [hrec]

/-- Claim C4: encoding a valid store to the binary format and decoding
the result restores the four header fields and the whole pixel payload
byte for byte, in the flat layout and in the arena layout. -/
theorem decode_encode_roundtrip (v : Video) (s : SVideo)
    (hv63 : v.num_frames < 2 ^ 63)
    (hvdata : v.data.length = v.channels * v.height * v.width * v.num_frames)
    (hs63 : s.num_frames < 2 ^ 63)
    (hslen : s.frames.length = s.num_frames)
    (hsch : ∀ fr ∈ s.frames, fr.length = s.channels)
    (hspix : ∀ fr ∈ s.frames, ∀ chd ∈ fr, chd.length = s.height * s.width) :
    decode (encode v) = some v ∧ decode_S (encode_S s) = some s := by
  obtain ⟨n, c, h, w, data⟩ := v
  obtain ⟨m, c2, h2, w2, frames⟩ := s
  exact ⟨decode_encode_flat n c h w data hv63 hvdata,
    decode_encode_arena m c2 h2 w2 frames hs63 hslen hsch hspix⟩

/-- Witness for the C4 round-trip theorem at concrete 2-frame stores. -/
theorem decode_encode_roundtrip_witness :
    ((Video.mk 2 1 1 2 [9, 8, 7, 6]).num_frames < 2 ^ 63 ∧
        (Video.mk 2 1 1 2 [9, 8, 7, 6]).data.length = 1 * 1 * 2 * 2) ∧
      decode (encode ⟨2, 1, 1, 2, [9, 8, 7, 6]⟩) = some ⟨2, 1, 1, 2, [9, 8, 7, 6]⟩ ∧
        decode_S (encode_S ⟨2, 1, 1, 2, [[[9, 8]], [[7, 6]]]⟩) =
          some ⟨2, 1, 1, 2, [[[9, 8]], [[7, 6]]]⟩ :=
  ⟨⟨by norm_num, by decide⟩,
   decode_encode_roundtrip ⟨2, 1, 1, 2, [9, 8, 7, 6]⟩ ⟨2, 1, 1, 2, [[[9, 8]], [[7, 6]]]⟩
     (by norm_num) (by decide) (by norm_num) (by decide) (by decide) (by decide)⟩

-- ## Claim C5: layout independence of the serialized bytes

/-- Claim C5: a flat store and an arena store holding the same header and
the same frame-major, channel-major, row-major sample sequence serialize
to byte-identical files. -/
theorem encode_layout_independent (v : Video) (s : SVideo)
    (hn : v.num_frames = s.num_frames) (hc : v.channels = s.channels)
    (hh : v.height = s.height) (hw : v.width = s.width)
    (hdata : v.data = (s.frames.map List.flatten).flatten)
    (hslen : s.frames.length = s.num_frames)
    (hsch : ∀ fr ∈ s.frames, fr.length = s.channels)
    (hspix : ∀ fr ∈ s.frames, ∀ chd ∈ fr, chd.length = s.height * s.width) :
    encode v = encode_S s := by
  obtain ⟨n, c, h, w, data⟩ := v
  obtain ⟨m, c2, h2, w2, frames⟩ := s
  simp only at hn hc hh hw hdata hslen hsch hspix
  subst hn hc hh hw hdata
  show natToLE 8 n ++ c :: h :: w ::
      ((frames.map List.flatten).flatten).take (c * h * w * n) = _
  unfold encode_S
  rw [payload_eq n c h w frames hslen hsch hspix]
  have hPlen : ((frames.map List.flatten).flatten).length = n * c * (h * w) :=
    payload_length n c h w frames hslen hsch hspix
  have htakeP : ((frames.map List.flatten).flatten).take (c * h * w * n) =
      (frames.map List.flatten).flatten := by
    have harr : c * h * w * n = n * c * (h * w) := by ring
    rw [harr, ← hPlen]
    exact List.take_length _
  rw [htakeP]

/-- Witness for the C5 layout-independence theorem at a concrete 2-frame,
2-channel store. -/
theorem encode_layout_independent_witness :
    ((Video.mk 2 2 1 1 [1, 2, 3, 4]).data =
        ((SVideo.mk 2 2 1 1 [[[1], [2]], [[3], [4]]]).frames.map List.flatten).flatten) ∧
      encode ⟨2, 2, 1, 1, [1, 2, 3, 4]⟩ = encode_S ⟨2, 2, 1, 1, [[[1], [2]], [[3], [4]]]⟩ :=
  ⟨by decide,
   encode_layout_independent ⟨2, 2, 1, 1, [1, 2, 3, 4]⟩ ⟨2, 2, 1, 1, [[[1], [2]], [[3], [4]]]⟩
     rfl rfl rfl rfl (by decide) (by decide) (by decide) (by decide)⟩

-- ## The two-pointer swap loop of reverse / reverse_S
-- (video_functions.c lines 397-405 and 423-429)
--
-- Both layouts run: for i in [0, num_frames/2), swap element i with
-- element num_frames-1-i (raw frame bytes in the flat layout, Frame
-- descriptor records in the arena layout), through a temporary.

/-- One loop body: temp := l[i]; l[i] := l[j]; l[j] := temp. -/
def swapAt {α : Type} (d : α) (l : List α) (i j : Nat) : List α :=
  (l.set i (l.getD j d)).set j (l.getD i d)

/-- The swap loop: m remaining iterations, current index i, mirror index
n - 1 - i as in the C source. -/
def revIter {α : Type} (d : α) (n : Nat) : Nat → Nat → List α → List α
  | 0, _, l => l
  | m + 1, i, l => revIter d n m (i + 1) (swapAt d l i (n - 1 - i))

theorem swapAt_length {α : Type} (d : α) (l : List α) (i j : Nat) :
    (swapAt d l i j).length = l.length := by
  simp [swapAt]

theorem revIter_length {α : Type} (d : α) (n m i : Nat) (l : List α) :
    (revIter d n m i l).length = l.length := by
  induction m generalizing i l with
  | zero => rfl
  | succ m ih => rw [revIter, ih, swapAt_length]

theorem swapAt_getD {α : Type} (d : α) (l : List α) (i j k : Nat) (hij : i ≠ j)
    (hi : i < l.length) (hj : j < l.length) (hk : k < l.length) :
    (swapAt d l i j).getD k d =
      if k = i then l.getD j d else if k = j then l.getD i d else l.getD k d := by
  unfold swapAt
  have hlen : ((l.set i (l.getD j d)).set j (l.getD i d)).length = l.length := by simp
  rw [List.getD_eq_getElem _ d (by rw [hlen]; exact hk)]
  by_cases hkj : k = j
  · subst hkj
    rw [List.getElem_set_self (by simpa using hk)]
    rw [if_neg (Ne.symm hij), if_pos rfl]
  · rw [List.getElem_set_ne (fun hh => hkj hh.symm)]
    by_cases hki : k = i
    · subst hki
      rw [List.getElem_set_self (by simpa using hk)]
      rw [if_pos rfl]
    · rw [List.getElem_set_ne (fun hh => hki hh.symm)]
      rw [if_neg hki, if_neg hkj]
      exact (List.getD_eq_getElem l d hk).symm

theorem revIter_getD {α : Type} (d : α) (n : Nat) :
    ∀ (m i : Nat) (l : List α), l.length = n → 2 * (i + m) ≤ n →
      ∀ j, j < n →
        (revIter d n m i l).getD j d =
          if (i ≤ j ∧ j < i + m) ∨ (n - (i + m) ≤ j ∧ j < n - i)
          then l.getD (n - 1 - j) d else l.getD j d := by
  intro m
  induction m with
  | zero =>
    intro i l hlen hbound j hj
    rw [if_neg (by omega)]
    rfl
  | succ m ih =>
    intro i l hlen hbound j hj
    show (revIter d n m (i + 1) (swapAt d l i (n - 1 - i))).getD j d = _
    have hsw : (swapAt d l i (n - 1 - i)).length = n := by
      rw [swapAt_length]; exact hlen
    rw [ih (i + 1) _ hsw (by omega) j hj]
    have hi_lt : i < l.length := by omega
    have hmir_lt : n - 1 - i < l.length := by omega
    have hne : i ≠ n - 1 - i := by omega
    by_cases hold : (i + 1 ≤ j ∧ j < i + 1 + m) ∨ (n - (i + 1 + m) ≤ j ∧ j < n - (i + 1))
    · rw [if_pos hold]
      rw [swapAt_getD d l i (n - 1 - i) (n - 1 - j) hne hi_lt hmir_lt (by omega)]
      rw [if_neg (by omega), if_neg (by omega)]
      by_cases hnew : (i ≤ j ∧ j < i + (m + 1)) ∨ (n - (i + (m + 1)) ≤ j ∧ j < n - i)
      · rw [if_pos hnew]
      · exfalso; omega
    · rw [if_neg hold]
      rw [swapAt_getD d l i (n - 1 - i) j hne hi_lt hmir_lt (by omega)]
      by_cases hnew : (i ≤ j ∧ j < i + (m + 1)) ∨ (n - (i + (m + 1)) ≤ j ∧ j < n - i)
      · rw [if_pos hnew]
        by_cases hji : j = i
        · rw [if_pos hji]
          rw [show n - 1 - j = n - 1 - i from by omega]
        · rw [if_neg hji]
          have hjm : j = n - 1 - i := by omega
          rw [if_pos hjm, show n - 1 - j = i from by omega]
      · rw [if_neg hnew]
        rw [if_neg (by omega), if_neg (by omega)]

theorem revIter_eq_reverse {α : Type} (d : α) (l : List α) (n : Nat)
    (hlen : l.length = n) :
    revIter d n (n / 2) 0 l = l.reverse := by
  subst hlen
  apply List.ext_getElem
  · rw [revIter_length, List.length_reverse]
  · intro j h1 h2
    have hj : j < l.length := by simpa using h2
    rw [← List.getD_eq_getElem _ d h1, ← List.getD_eq_getElem _ d h2]
    rw [revIter_getD d l.length (l.length / 2) 0 l rfl (by omega) j hj]
    have hrev : l.reverse.getD j d = l.getD (l.length - 1 - j) d := by
      rw [List.getD_eq_getElem _ d h2, List.getD_eq_getElem _ d (by omega)]
      exact List.getElem_reverse h2
    by_cases hcond : (0 ≤ j ∧ j < 0 + l.length / 2) ∨
        (l.length - (0 + l.length / 2) ≤ j ∧ j < l.length - 0)
    · rw [if_pos hcond, hrev]
    · rw [if_neg hcond, hrev, show l.length - 1 - j = j from by omega]

-- ## Chunk view of the flat buffer

/-- Split a flat buffer into n frame-sized chunks of k bytes. -/
def chunksOf {α : Type} (k : Nat) : Nat → List α → List (List α)
  | 0, _ => []
  | n + 1, l => l.take k :: chunksOf k n (l.drop k)

theorem chunksOf_length {α : Type} (k n : Nat) (l : List α) :
    (chunksOf k n l).length = n := by
  induction n generalizing l with
  | zero => rfl
  | succ n ih => simp [chunksOf, ih]

theorem chunksOf_flatten {α : Type} (k n : Nat) (l : List α) (h : l.length = n * k) :
    (chunksOf k n l).flatten = l := by
  induction n generalizing l with
  | zero =>
    have : l = [] := List.length_eq_zero.mp (by omega)
    simp [chunksOf, this]
  | succ n ih =>
    simp only [chunksOf, List.flatten_cons]
    rw [ih (l.drop k) (by
      rw [List.length_drop, h]
      have harr : (n + 1) * k = n * k + k := by ring
      omega)]
    exact List.take_append_drop k l

theorem chunksOf_uniform {α : Type} (k n : Nat) (l : List α) (h : l.length = n * k) :
    ∀ x ∈ chunksOf k n l, x.length = k := by
  induction n generalizing l with
  | zero => simp [chunksOf]
  | succ n ih =>
    intro x hx
    have harr : (n + 1) * k = n * k + k := by ring
    simp only [chunksOf, List.mem_cons] at hx
    rcases hx with rfl | hx
    · rw [List.length_take]; omega
    · exact ih (l.drop k) (by rw [List.length_drop, h]; omega) x hx

theorem chunksOf_of_flatten {α : Type} (k n : Nat) (L : List (List α))
    (hL : L.length = n) (hU : ∀ x ∈ L, x.length = k) :
    chunksOf k n L.flatten = L := by
  induction L generalizing n with
  | nil => subst hL; rfl
  | cons x xs ih =>
    subst hL
    simp only [List.length_cons, chunksOf, List.flatten_cons]
    have hx : x.length = k := hU x (by simp)
    rw [List.take_left' hx, List.drop_left' hx]
    rw [ih xs.length rfl (fun y hy => hU y (List.mem_cons_of_mem x hy))]

-- ## reverse (flat, video_functions.c lines 378-408) and reverse_S
-- (arena, lines 410-430)

/-- reverse of video_functions.c lines 378-408 (flat layout): swap the
frame_size-byte ranges of frames i and num_frames-1-i for
i in [0, num_frames/2), through a temporary buffer. -/
def reverse (v : Video) : Video :=
  { v with data := (revIter [] v.num_frames (v.num_frames / 2) 0
      (chunksOf (v.channels * v.height * v.width) v.num_frames v.data)).flatten }

/-- Arena store reduced to what reverse_S touches: the list of Frame
descriptor records and the pixel payload region, disjoint regions of the
single allocation. -/
structure SArena where
  num_frames : Nat
  frameDescs : List Nat
  payload : List Nat
deriving DecidableEq, Repr

/-- reverse_S of video_functions.c lines 410-430 (arena layout): swap only
the fixed-size Frame descriptor records i and num_frames-1-i for
i in [0, num_frames/2); the pixel payload region is never touched. -/
def reverse_S (a : SArena) : SArena :=
  { a with frameDescs := revIter 0 a.num_frames (a.num_frames / 2) 0 a.frameDescs }

/-- Claim C6: reverse exchanges frame i with frame num_frames-1-i for
every i below num_frames/2, so the logical frame order becomes the exact
reversal in both layouts; in the arena layout only the Frame descriptor
records move and the payload region is byte-identical; both variants are
no-ops on stores of at most one frame. -/
theorem reverse_exact_reversal (v : Video) (a : SArena)
    (hdata : v.data.length = v.num_frames * (v.channels * v.height * v.width))
    (hdesc : a.frameDescs.length = a.num_frames) :
    chunksOf (v.channels * v.height * v.width) v.num_frames (reverse v).data
        = (chunksOf (v.channels * v.height * v.width) v.num_frames v.data).reverse ∧
      (reverse_S a).frameDescs = a.frameDescs.reverse ∧
      (reverse_S a).payload = a.payload ∧
      (v.num_frames ≤ 1 → reverse v = v) ∧
      (a.num_frames ≤ 1 → reverse_S a = a) := by
  have hClen : (chunksOf (v.channels * v.height * v.width) v.num_frames v.data).length
      = v.num_frames := chunksOf_length _ _ _
  have hCuni := chunksOf_uniform (v.channels * v.height * v.width) v.num_frames v.data hdata
  refine ⟨?_, ?_, rfl, ?_, ?_⟩
  · show chunksOf _ _ (revIter [] v.num_frames (v.num_frames / 2) 0 _).flatten = _
    rw [revIter_eq_reverse [] _ v.num_frames hClen]
    exact chunksOf_of_flatten _ _ _ (by rw [List.length_reverse, hClen])
      (fun x hx => hCuni x (List.mem_reverse.mp hx))
  · exact revIter_eq_reverse 0 _ a.num_frames hdesc
  · intro h1
    have h0 : v.num_frames / 2 = 0 := by omega
    show { v with data := (revIter [] v.num_frames (v.num_frames / 2) 0
        (chunksOf (v.channels * v.height * v.width) v.num_frames v.data)).flatten } = v
    rw [h0]
    show { v with data := (chunksOf (v.channels * v.height * v.width)
        v.num_frames v.data).flatten } = v
    rw [chunksOf_flatten _ _ _ hdata]
  · intro h1
    have h0 : a.num_frames / 2 = 0 := by omega
    show { a with frameDescs := revIter 0 a.num_frames (a.num_frames / 2) 0 a.frameDescs } = a
    rw [h0]
    rfl

/-- Witness for the C6 reversal theorem at a concrete 3-frame flat store
and a concrete 2-frame arena store. -/
theorem reverse_exact_reversal_witness :
    ((Video.mk 3 1 1 1 [5, 6, 7]).data.length = 3 * (1 * 1 * 1) ∧
        (SArena.mk 2 [10, 20] [1, 2, 3, 4]).frameDescs.length = 2) ∧
      (chunksOf (1 * 1 * 1) 3 (reverse ⟨3, 1, 1, 1, [5, 6, 7]⟩).data
          = (chunksOf (1 * 1 * 1) 3 (Video.mk 3 1 1 1 [5, 6, 7]).data).reverse ∧
        (reverse_S ⟨2, [10, 20], [1, 2, 3, 4]⟩).frameDescs = [20, 10] ∧
        (reverse_S ⟨2, [10, 20], [1, 2, 3, 4]⟩).payload = [1, 2, 3, 4]) :=
  ⟨⟨by decide, by decide⟩, by
    have h := reverse_exact_reversal ⟨3, 1, 1, 1, [5, 6, 7]⟩ ⟨2, [10, 20], [1, 2, 3, 4]⟩
      (by decide) (by decide)
    exact ⟨h.1, by rw [h.2.1]; rfl, h.2.2.1⟩⟩

-- ## Claim C9: decode performs no header validation

/-- Counterexample to claim C9: an 11-byte file whose header declares
num_frames = 1, channels = 0, height = 1, width = 1 is decoded to a store
with channels = 0; decode does not detect the malformed value and does
not fail. -/
theorem decode_returns_store_for_zero_channels :
    decode [1, 0, 0, 0, 0, 0, 0, 0, 0, 1, 1] = some ⟨1, 0, 1, 1, []⟩ ∧
      decode [1, 0, 0, 0, 0, 0, 0, 0, 0, 1, 1] ≠ none := by
  exact ⟨by decide, by decide⟩

/-- Claim C9 (amended): decode validates no header value; a well-formed
file whose header declares channels = 0 (whose payload is therefore
empty) decodes successfully to a store carrying channels = 0, instead of
being rejected. -/
theorem decode_accepts_zero_channels (n h w : Nat) (h63 : n < 2 ^ 63)
    (hh : h < 256) (hw : w < 256) :
    decode (natToLE 8 n ++ 0 :: h :: w :: []) = some ⟨n, 0, h, w, []⟩ := by
  unfold decode
  rw [header_length n 0 h w [], header_take8 n 0 h w [], header_getD8 n 0 h w [],
    header_getD9 n 0 h w [], header_getD10 n 0 h w [], header_drop11 n 0 h w [],
    leToNat_take8 n h63]
  rw [if_neg (by omega), if_neg (by norm_num)]
  simp

/-- Witness for the amended C9 theorem. -/
theorem decode_accepts_zero_channels_witness :
    ((2 : Nat) < 2 ^ 63 ∧ (3 : Nat) < 256 ∧ (4 : Nat) < 256) ∧
      decode (natToLE 8 2 ++ 0 :: 3 :: 4 :: []) = some ⟨2, 0, 3, 4, []⟩ :=
  ⟨⟨by norm_num, by norm_num, by norm_num⟩,
   decode_accepts_zero_channels 2 3 4 (by norm_num) (by norm_num) (by norm_num)⟩

-- ## Claim C7: precondition-check order of swap_channels_S
-- (video_functions.c lines 499-525)
--
-- swap_channels_S tests channel1 >= video->channels at line 508 BEFORE
-- its null test at line 513, so the very first thing a call with a null
-- store does is dereference the null pointer.  The execution is modelled
-- with Except: error () marks the null dereference (undefined behaviour),
-- ok marks a completed call.

/-- Reading the channels field of a possibly-null store: a null store
makes this a null dereference (error). -/
def channelsFieldRead (v : Option SVideo) : Except Unit Nat :=
  match v with
  | none => Except.error ()
  | some s => Except.ok s.channels

/-- The body of swap_channels_S once the guards pass: for every frame
below num_frames, exchange the two Channel descriptor records (an O(1)
swap per frame; pixel data does not move). -/
def swap_channels_S_core (s : SVideo) (c1 c2 : Nat) : SVideo :=
  { s with frames := (List.range s.frames.length).map (fun f =>
      let fr := s.frames.getD f []
      if f < s.num_frames then swapAt [] fr c1 c2 else fr) }

/-- swap_channels_S of video_functions.c lines 499-525, with the source's
statement order: the channel-range test (which reads video->channels)
runs first, the null test only after it. -/
def swap_channels_S_run (v : Option SVideo) (c1 c2 : Nat) :
    Except Unit (Option SVideo) :=
  match channelsFieldRead v with
  | Except.error e => Except.error e
  | Except.ok ch =>
    if c1 ≥ ch ∨ c2 ≥ ch then Except.ok v
    else Except.ok (v.map (fun s => swap_channels_S_core s c1 c2))

/-- Claim C7 (code bug): calling swap_channels_S with a null store
dereferences the store (reads video->channels, line 508) before the null
check at line 513 ever runs, so the call is undefined behaviour rather
than the reported, store-preserving no-op the claim requires. -/
theorem swap_channels_S_null_dereference :
    swap_channels_S_run none 0 0 = Except.error () := rfl

-- ## Claim C8: scale in the WASM bulk-export layer
-- (video_functions_wasm.c lines 213-245 vs video_functions.c lines
-- 673-704)
--
-- The float arithmetic is modelled exactly over the rationals; every
-- number appearing in the failing input (200, 2.0, 400.0) is exactly
-- representable in binary32, so the rational model agrees with the C
-- float computation there.

/-- Round a rational toward zero, the C float-to-integer conversion
rule. -/
def truncQ (s : ℚ) : Int :=
  if 0 ≤ s then ⌊s⌋ else -⌊-s⌋

/-- One sample of core scale_channel (video_functions.c lines 699-702):
scaled_value = v * factor as float, CLAMP(scaled_value, 0.0f, 255.0f) in
float, then the narrowing cast to unsigned char truncates toward zero.
The clamped value always fits, so the cast is defined. -/
def scale_elem (v8 : Nat) (f : ℚ) : Nat :=
  (truncQ (if (v8 : ℚ) * f < 0 then 0
           else if (v8 : ℚ) * f > 255 then 255
           else (v8 : ℚ) * f)).toNat

/-- One sample of scale_channel_S_wasm (video_functions_wasm.c lines
237-239): scaled_value = v * factor, then CLAMP((unsigned char)
scaled_value, 0, 255) — the cast runs FIRST.  When the truncated product
does not fit in unsigned char the conversion is undefined behaviour
(C17 6.3.1.4p1), modelled as none; otherwise the subsequent CLAMP of an
unsigned char to [0, 255] is the identity. -/
def scale_elem_S_wasm (v8 : Nat) (f : ℚ) : Option Nat :=
  if 0 ≤ truncQ ((v8 : ℚ) * f) ∧ truncQ ((v8 : ℚ) * f) ≤ 255 then
    some (CLAMP (truncQ ((v8 : ℚ) * f)).toNat 0 255)
  else none

/-- The common x86/wasm lowering of the out-of-range cast (value reduced
modulo 256), for reference: it yields 144, not the 255 the spec formula
requires. -/
def scale_elem_S_wasm_mod (v8 : Nat) (f : ℚ) : Nat :=
  CLAMP ((truncQ ((v8 : ℚ) * f)).toNat % 256) 0 255

/-- Claim C8 (code bug): on sample value 200 with factor 2.0 the core
scale rule (clamp before the narrowing cast) produces 255, while
scale_channel_S_wasm casts the unclamped 400.0 to unsigned char first —
an out-of-range conversion (undefined; 144 under the usual modular
lowering) — so the WASM bulk-export transform does not reproduce the core
transform's bytes; its CLAMP of an already-narrowed value is dead code. -/
theorem scale_channel_S_wasm_cast_out_of_range :
    scale_elem 200 2 = 255 ∧ scale_elem_S_wasm 200 2 = none ∧
      scale_elem_S_wasm_mod 200 2 = 144 := by
  refine ⟨?_, ?_, ?_⟩
  · unfold scale_elem truncQ
    norm_num
    decide
  · unfold scale_elem_S_wasm truncQ
    norm_num
  · unfold scale_elem_S_wasm_mod truncQ CLAMP
    norm_num
    decide

-- ## Claims C1 and C10: streaming decode adapter growth
-- (decode_standard_video, video_codec.c lines 65-295)
--
-- The adapter state is modelled with abstract addresses (gen, off): gen
-- identifies the allocation the address points into (realloc that moves
-- the block starts a new generation; the bytes already stored — hence
-- the descriptor pointer values — are copied unchanged), off is the byte
-- offset from that allocation's base.  sizeof(Frame) = sizeof(Channel)
-- = 8 (one 64-bit pointer each), channels = 3 (the adapter always
-- decodes to RGB, line 178).

/-- An address stored in a descriptor: allocation generation and byte
offset from that allocation's base. -/
structure DescPtr where
  gen : Nat
  off : Nat
deriving DecidableEq, Repr

/-- Adapter state: capacity, current allocation generation, the
num_frames field of the SVideo, and per decoded frame the stored
Frame.channels pointer and the three stored Channel.data pointers. -/
structure ArenaSim where
  cap : Nat
  gen : Nat
  numFramesField : Nat
  framesChannelsPtr : List DescPtr
  chanDataPtr : List (List DescPtr)
deriving DecidableEq, Repr

/-- Descriptor setup for the newly decoded frame (video_codec.c lines
256-264): frame_count's Frame.channels pointer and its three
Channel.data pointers are computed from the CURRENT base and capacity;
descriptors of earlier frames are not rewritten. -/
def writeFrameDescs (fs : Nat) (st : ArenaSim) : ArenaSim :=
  let k := st.framesChannelsPtr.length
  { st with
    framesChannelsPtr := st.framesChannelsPtr ++ [⟨st.gen, st.cap * 8 + k * 3 * 8⟩],
    chanDataPtr := st.chanDataPtr ++
      [(List.range 3).map (fun c =>
        ⟨st.gen, st.cap * 8 + st.cap * 3 * 8 + (k * 3 + c) * fs⟩)] }

/-- The decode loop of video_codec.c lines 211-280: per frame, if
frame_count has reached capacity, double the capacity and realloc (a
failing realloc aborts via goto cleanup — second component true; a
moving realloc starts a new generation), then write the new frame's
descriptors and advance. -/
def decodeLoop (fs : Nat) (reallocFails reallocMoves : Bool) :
    Nat → ArenaSim → ArenaSim × Bool
  | 0, st => (st, false)
  | n + 1, st =>
    if st.framesChannelsPtr.length ≥ st.cap then
      if reallocFails then (st, true)
      else
        let grown : ArenaSim :=
          { st with
            cap := st.cap * 2
            gen := st.gen + (if reallocMoves then 1 else 0) }
        decodeLoop fs reallocFails reallocMoves n (writeFrameDescs fs grown)
    else decodeLoop fs reallocFails reallocMoves n (writeFrameDescs fs st)

/-- decode_standard_video of video_codec.c lines 65-295 for a source of N
frames: run the loop from an empty store with the guessed capacity; on
normal completion set svideo->num_frames = frame_count (line 282); on an
aborted loop fall through to cleanup WITHOUT nulling svideo, so the
partial store is still returned (the function returns none only on the
early failures before the loop). -/
def decode_standard_video_sim (fs N cap0 : Nat) (reallocFails reallocMoves : Bool) :
    Option ArenaSim :=
  let r := decodeLoop fs reallocFails reallocMoves N ⟨cap0, 0, 0, [], []⟩
  if r.2 then some r.1
  else some { r.1 with numFramesField := r.1.framesChannelsPtr.length }

/-- Do all stored descriptor pointers point into the current (final)
allocation? -/
def allDescsInCurrentBlock (st : ArenaSim) : Bool :=
  st.framesChannelsPtr.all (fun p => p.gen == st.gen) &&
    st.chanDataPtr.all (fun l => l.all (fun p => p.gen == st.gen))

/-- Claim C1 (code bug): streaming-decoding 2 frames of 4 bytes into an
arena of initial capacity 1 with a relocating realloc ends in generation
1, but frame 0's Frame.channels pointer and all three of its Channel.data
pointers still carry generation 0 — they were computed from the
pre-resize base and never recomputed, so they point into the freed old
block; the finalized store fails the every-descriptor-resolves-into-the-
final-allocation property the claim asserts. -/
theorem growth_leaves_stale_descriptors :
    (decode_standard_video_sim 4 2 1 false true).map allDescsInCurrentBlock = some false ∧
      (decode_standard_video_sim 4 2 1 false true).map (fun st => st.gen) = some 1 ∧
      (decode_standard_video_sim 4 2 1 false true).map
          (fun st => (st.framesChannelsPtr.getD 0 ⟨99, 99⟩).gen) = some 0 ∧
      (decode_standard_video_sim 4 2 1 false true).map
          (fun st => (st.chanDataPtr.getD 0 []).map (fun p => p.gen)) = some [0, 0, 0] := by
  decide

/-- Claim C10 (code bug): when realloc fails while growing (2 frames into
capacity 1), decode_standard_video's goto cleanup path returns the
non-null partial store instead of releasing it and returning NULL: the
caller receives a store whose num_frames field still reads 0 although one
frame was decoded into it. -/
theorem realloc_failure_returns_partial_store :
    decode_standard_video_sim 4 2 1 true false ≠ none ∧
      (decode_standard_video_sim 4 2 1 true false).map
          (fun st => (st.numFramesField, st.framesChannelsPtr.length)) = some (0, 1) := by
  refine ⟨by decide, by decide⟩

end Film
